import Mathlib

/-!
Shallow embedding of `reasoning_gym/logic/multi_step_reasoning.py`.

The Python module defines a procedural dataset of multi-step reasoning
puzzles.  Each item is generated from a `random.Random` stream seeded with
`config.seed + index`.  We model the pseudo-random stream abstractly: an
oracle `Nat → Nat` supplies one natural number per primitive draw, and each
primitive (`random()`, `randint`, `choice`, `sample`, `shuffle`) maps the
raw draw onto exactly the set of values the Python primitive can return.
Machine floats from `random()` are modelled as rationals `k / 2^53`
(CPython's `random()` returns a 53-bit fraction).  Fallible operations
(`int(s, 2)` on a malformed string, `list.index` on a missing element,
`rng.choice` on an empty list, `randint` with an empty range) return
`Option`, with `none` marking a raised Python exception.
-/

namespace MultiStep

/-- `WORD_BANK` from the source. -/
def WORD_BANK : List String :=
  ["lion", "tiger", "bear", "wolf", "eagle", "shark", "horse", "whale", "otter", "camel"]

/-- `NAME_BANK` from the source. -/
def NAME_BANK : List String :=
  ["Alice", "Bob", "Carol", "Dave", "Eve", "Frank", "Grace", "Heidi", "Ivan", "Judy"]

/-- `DATASET_NAME` from the source. -/
def DATASET_NAME : String := "multi_step_reasoning"

/-- Abstract pseudo-random stream: a draw oracle plus the current position. -/
structure RNG where
  oracle : Nat → Nat
  pos : Nat

/-- Advance the stream by one draw. -/
def RNG.next (r : RNG) : RNG := ⟨r.oracle, r.pos + 1⟩

/-- The raw natural number supplied for the current draw. -/
def RNG.cur (r : RNG) : Nat := r.oracle r.pos

/-- `rng.random()`: a uniform 53-bit fraction in `[0, 1)`. -/
def RNG.randFloat (r : RNG) : ℚ × RNG :=
  (mkRat (r.cur % 2 ^ 53 : Nat) (2 ^ 53), r.next)

/-- `rng.randint(a, b)`: an integer in `[a, b]`; raises (`none`) if `a > b`. -/
def RNG.randint (a b : Int) (r : RNG) : Option (Int × RNG) :=
  if a ≤ b then some (a + ((r.cur % (b - a + 1).toNat : Nat) : Int), r.next)
  else none

/-- `rng.choice(l)`: an element of `l`; raises (`none`) on an empty list. -/
def RNG.choiceList (l : List String) (r : RNG) : Option (String × RNG) :=
  if l.length = 0 then none
  else some (l.getD (r.cur % l.length) "", r.next)

/-- `rng.shuffle` on a two-element list: either order is reachable. -/
def RNG.pairShuffle {α : Type} (x y : α) (r : RNG) : (α × α) × RNG :=
  if r.cur % 2 = 0 then ((y, x), r.next) else ((x, y), r.next)

/-- `rng.sample(l, k)`: `k` draws without replacement (picked elements are
removed from the pool before the next pick); raises (`none`) when the pool
runs out, which happens exactly when `k > l.length`. -/
def RNG.sample (l : List String) (k : Nat) (r : RNG) : Option (List String × RNG) :=
  match k with
  | 0 => some ([], r)
  | k + 1 =>
    if l.length = 0 then none
    else
      match RNG.sample (l.eraseIdx (r.cur % l.length)) k r.next with
      | none => none
      | some (xs, r') => some (l.getD (r.cur % l.length) "" :: xs, r')

/-- The mutable `state` dict threaded through the step operators. -/
structure PuzzleState where
  num : Int
  word : String
  person : String
deriving DecidableEq, Repr

/-- A metadata value (the Python dict holds both strings and integers). -/
inductive MetaVal where
  | i (n : Int)
  | s (str : String)
deriving DecidableEq, Repr

/-- The dict returned by `_generate_item`. -/
structure Item where
  question : String
  answer : String
  metadata : List (String × MetaVal)
deriving DecidableEq, Repr

/-! ### Decimal rendering (Python `str` on `int` arguments of f-strings) -/

/-- The character for a decimal digit. -/
def digitChar (d : Nat) : Char := Char.ofNat (48 + d)

/-- Accumulator loop for decimal digits (fuel-based so that it reduces
definitionally; the fuel `n + 1` always suffices since each step divides
the argument by 10). -/
def natDigitsGo : Nat → Nat → List Char → List Char
  | 0, _, acc => acc
  | fuel + 1, n, acc =>
    if n < 10 then digitChar n :: acc
    else natDigitsGo fuel (n / 10) (digitChar (n % 10) :: acc)

/-- Decimal digits of a natural number, most significant first. -/
def natDigits (n : Nat) : List Char := natDigitsGo (n + 1) n []

/-- Python `str` on a natural number. -/
def natRepr (n : Nat) : String := ⟨natDigits n⟩

/-- Python `str` on an integer. -/
def intRepr (i : Int) : String :=
  if i < 0 then "-" ++ natRepr i.natAbs else natRepr i.toNat

/-- Python `str.join("\n", lines)`. -/
def joinLines : List String → String
  | [] => ""
  | [l] => l
  | l :: ls => l ++ "\n" ++ joinLines ls

/-- Python `repr` of a list of strings, e.g. `['lion', 'tiger']`
(f-strings such as `f"... in {self.NAME_BANK} ..."` render the list this way). -/
def pyQuote (s : String) : String := "\x27" ++ s ++ "\x27"

/-- Comma-separated quoted entries of a Python list repr. -/
def pyListBody : List String → String
  | [] => ""
  | [x] => pyQuote x
  | x :: xs => pyQuote x ++ ", " ++ pyListBody xs

/-- Python `repr` of a list of strings. -/
def pyListRepr (l : List String) : String := "[" ++ pyListBody l ++ "]"

/-- The common `"Step {n}: "` prefix of every rendered line. -/
def stepLine (n : Int) (body : String) : String :=
  "Step " ++ intRepr n ++ ": " ++ body

/-! ### Small arithmetic helpers used by the operators -/

/-- Vowel test used by `sum(1 for c in word if c in "aeiou")`. -/
def isVowel (c : Char) : Bool :=
  c == 'a' || c == 'e' || c == 'i' || c == 'o' || c == 'u'

/-- Number of vowels in a word. -/
def countVowels (s : String) : Nat := s.data.countP isVowel

/-- Accumulator loop for base-`base` digits (fuel-based so that it reduces
definitionally). -/
def baseDigitsGo (base : Nat) : Nat → Nat → List Nat → List Nat
  | 0, _, acc => acc
  | fuel + 1, n, acc =>
    if n < base then n :: acc
    else baseDigitsGo base fuel (n / base) (n % base :: acc)

/-- Base-4 digits of a natural number, most significant first
(`np.base_repr(n, base=4)`; `0` renders as `"0"`). -/
def base4Digits (n : Nat) : List Nat := baseDigitsGo 4 (n + 1) n []

/-- Binary digits of a natural number, most significant first
(`bin(n)[2:]` for `n ≥ 0`; `0` renders as `"0"`). -/
def natBinary (n : Nat) : List Nat := baseDigitsGo 2 (n + 1) n []

/-- Value of a digit string read in base 2 (`int(s, 2)`). -/
def bitsVal (l : List Nat) : Nat := l.foldl (fun a b => 2 * a + b) 0

/-- `value = value * mult + add` iterated `k` times. -/
def iterMulAdd (mult add : Int) : Nat → Int → Int
  | 0, v => v
  | k + 1, v => iterMulAdd mult add k (v * mult + add)

/-- One `forward`/`backward` round of the induction name walk:
`idx = (idx + forward) % len(NAME_BANK)` then
`idx = (idx - backward) % len(NAME_BANK)`. -/
def fwdBwdStep (forward backward idx : Int) : Int :=
  ((idx + forward) % (NAME_BANK.length : Int) - backward) % (NAME_BANK.length : Int)

/-- The name walk iterated `k` times. -/
def iterFwdBwd (forward backward : Int) : Nat → Int → Int
  | 0, idx => idx
  | k + 1, idx => iterFwdBwd forward backward k (fwdBwdStep forward backward idx)

/-- Word-bank index `(num ** 3 + num) % len(WORD_BANK)` from transduction. -/
def wordBankIndex (num : Int) : Nat :=
  ((num ^ 3 + num) % (WORD_BANK.length : Int)).toNat

/-- Forward name-bank index `(idx + offset) % len(NAME_BANK)` from transduction. -/
def nameShiftFwd (idx offset : Int) : Nat :=
  ((idx + offset) % (NAME_BANK.length : Int)).toNat

/-- Backward name-bank index `(idx - offset) % len(NAME_BANK)` from transduction. -/
def nameShiftBwd (idx offset : Int) : Nat :=
  ((idx - offset) % (NAME_BANK.length : Int)).toNat

/-- Numeric decoy `max(2, secret + offset)` from abduction. -/
def numericDecoy (secret offset : Int) : Int := max 2 (secret + offset)

/-- Word decoy pool `[w for w in WORD_BANK if w != orig]` from abduction. -/
def wordDecoyPool (orig : String) : List String :=
  WORD_BANK.filter (fun w => w ≠ orig)

/-- Caesar shift of one character: `chr(((ord(c) - 97 + shift) % 26) + 97)`. -/
def shiftChar (shift : Int) (c : Char) : Char :=
  Char.ofNat ((((c.toNat : Int) - 97 + shift) % 26 + 97).toNat)

/-- `word[::2]`: every second character, starting with the first. -/
def everySnd : List Char → List Char
  | [] => []
  | [c] => [c]
  | c :: _ :: rest => c :: everySnd rest

/-! ### The four step operators

Each mirrors one `_deduction` / `_induction` / `_abduction` / `_transduction`
method: one `rng.random()` draw dispatches the three sub-variants at the
`0.33` / `0.66` boundaries, and the chosen variant draws its parameters in
the source's order, mutates one field of the state and renders the line.
-/

/-- `_deduction`.  (`state["word"]` is always set before any step runs, so
the dead `state.get("word") is None` disjunct of the first branch is
omitted.) -/
def deduction (stepNo : Nat) (s : PuzzleState) (r : RNG) :
    Option (String × PuzzleState × RNG) :=
  let (choice, r) := r.randFloat
  if choice < mkRat 33 100 then
    match r.randint 10 20 with
    | none => none
    | some (mult1, r) =>
    match r.randint 5 15 with
    | none => none
    | some (add, r) =>
    match r.randint 2 5 with
    | none => none
    | some (mult2, r) =>
    match r.randint 2 10 with
    | none => none
    | some (sub, r) =>
      let res := (s.num * mult1 + add - sub) * mult2
      some (stepLine stepNo
        ("Multiply " ++ intRepr s.num ++ " by " ++ intRepr mult1 ++ ", add " ++ intRepr add ++
         ", subtract " ++ intRepr sub ++ ", then multiply the result by " ++ intRepr mult2 ++
         ". What number results?"),
        { s with num := res }, r)
  else if choice < mkRat 66 100 then
    match r.randint 3 4 with
    | none => none
    | some (shortThres, r) =>
    match r.randint 7 9 with
    | none => none
    | some (longThres, r) =>
      let vowelCount := countVowels s.word
      let classification :=
        if (s.word.length : Int) ≤ shortThres ∨ vowelCount < 2 then "small"
        else if (s.word.length : Int) ≥ longThres ∧ vowelCount ≥ 3 then "large"
        else "medium"
      some (stepLine stepNo
        ("Words with ≤" ++ intRepr shortThres ++
         " letters or fewer than 2 vowels are \x27small\x27; those with ≥" ++
         intRepr longThres ++
         " letters and at least 3 vowels are \x27large\x27; otherwise \x27medium\x27. Is \x27" ++
         s.word ++ "\x27 small, medium, or large?"),
        { s with word := classification }, r)
  else
    match RNG.sample NAME_BANK 4 r with
    | none => none
    | some (picks, r) =>
      let a := picks.getD 0 ""
      let b := picks.getD 1 ""
      let c := picks.getD 2 ""
      let d := picks.getD 3 ""
      some (stepLine stepNo
        (a ++ " and " ++ b ++ " are siblings. " ++ b ++ " is " ++ c ++
         "\x27s parent and " ++ c ++ " and " ++ d ++ " are siblings. Who is " ++ d ++
         "\x27s aunt or uncle?"),
        { s with person := a }, r)

/-- `_induction`. -/
def induction (stepNo : Nat) (s : PuzzleState) (r : RNG) :
    Option (String × PuzzleState × RNG) :=
  let (choice, r) := r.randFloat
  if choice < mkRat 33 100 then
    match r.randint 2 4 with
    | none => none
    | some (mult, r) =>
    match r.randint 3 7 with
    | none => none
    | some (add, r) =>
    match r.randint 3 5 with
    | none => none
    | some (n, r) =>
      let value := iterMulAdd mult add n.toNat s.num
      some (stepLine stepNo
        ("Starting at " ++ intRepr s.num ++ ", repeatedly multiply by " ++ intRepr mult ++
         " and add " ++ intRepr add ++ " for " ++ intRepr n ++
         " iterations. What number results?"),
        { s with num := value }, r)
  else if choice < mkRat 66 100 then
    match s.word.data.getLast? with
    | none => none
    | some last =>
      let newWord : String := ⟨(everySnd s.word.data).reverse ++ [last]⟩
      some (stepLine stepNo
        ("Take every second letter of \x27" ++ s.word ++
         "\x27, reverse those letters, and append the last letter of the original word. " ++
         "What word results?"),
        { s with word := newWord }, r)
  else
    match RNG.choiceList NAME_BANK r with
    | none => none
    | some (_, r) =>
      let start := s.person
      match r.randint 1 3 with
      | none => none
      | some (forward, r) =>
      match r.randint 1 3 with
      | none => none
      | some (backward, r) =>
      match r.randint 2 4 with
      | none => none
      | some (n, r) =>
        match NAME_BANK.indexOf? start with
        | none => none
        | some idx0 =>
          let idx := iterFwdBwd forward backward n.toNat (idx0 : Int)
          let target := NAME_BANK.getD idx.toNat ""
          some (stepLine stepNo
            ("Starting from " ++ start ++ ", move forward " ++ intRepr forward ++
             " names then backward " ++ intRepr backward ++ " names, repeating this " ++
             intRepr n ++ " times in " ++ pyListRepr NAME_BANK ++
             ". Which name do you reach?"),
            { s with person := target }, r)

/-- `_abduction`. -/
def abduction (stepNo : Nat) (s : PuzzleState) (r : RNG) :
    Option (String × PuzzleState × RNG) :=
  let (choice, r) := r.randFloat
  if choice < mkRat 33 100 then
    match r.randint 2 5 with
    | none => none
    | some (secret, r) =>
    match r.randint 2 4 with
    | none => none
    | some (mult, r) =>
      let add := s.num - secret ^ 3 * mult
      match r.randint 1 3 with
      | none => none
      | some (off, r) =>
        let wrong := numericDecoy secret off
        let ((o0, o1), r) := RNG.pairShuffle secret wrong r
        some (stepLine stepNo
          ("The number " ++ intRepr s.num ++
           " was made by cubing a secret number, multiplying by " ++ intRepr mult ++
           ", and adding " ++ intRepr add ++ ". Was that number " ++ intRepr o0 ++
           " or " ++ intRepr o1 ++ "?"),
          { s with num := secret }, r)
  else if choice < mkRat 66 100 then
    match r.randint 1 3 with
    | none => none
    | some (shift, r) =>
    match RNG.choiceList WORD_BANK r with
    | none => none
    | some (orig, r) =>
      let encoded : String := ⟨(orig.data.map (shiftChar shift)).reverse⟩
      match RNG.choiceList (wordDecoyPool orig) r with
      | none => none
      | some (wrong, r) =>
        let ((o0, o1), r) := RNG.pairShuffle orig wrong r
        some (stepLine stepNo
          ("Each letter of a secret word was shifted forward by " ++ intRepr shift ++
           " and then the result was reversed to get \x27" ++ encoded ++
           "\x27. Was the original word \x27" ++ o0 ++ "\x27 or \x27" ++ o1 ++ "\x27?"),
          { s with word := orig }, r)
  else
    match RNG.sample NAME_BANK 4 r with
    | none => none
    | some (picks, r) =>
      let a := picks.getD 0 ""
      let b := picks.getD 1 ""
      let c := picks.getD 2 ""
      let d := picks.getD 3 ""
      some (stepLine stepNo
        (a ++ " is " ++ b ++ "\x27s parent. " ++ b ++ " and " ++ c ++ " are siblings. " ++
         c ++ " is " ++ d ++ "\x27s parent. Who is " ++ a ++ " to " ++ d ++ "?"),
        { s with person := a }, r)

/-- `_transduction`.  The reversed-binary sub-variant evaluates
`int(bin(num)[2:][::-1], 2)`, which raises `ValueError` when `num < 0`
(then `bin(num)` starts with `"-0b"` and the sliced string keeps a `"b"`);
we model the raise as `none`. -/
def transduction (stepNo : Nat) (s : PuzzleState) (r : RNG) :
    Option (String × PuzzleState × RNG) :=
  let (choice, r) := r.randFloat
  if choice < mkRat 33 100 then
    let (inner, r) := r.randFloat
    if inner < mkRat 1 2 then
      let res : Int := ((base4Digits s.num.natAbs).count 3 : Int)
      some (stepLine stepNo
        ("Write " ++ intRepr s.num ++ " in base " ++ intRepr 4 ++
         ". How many digits \x273\x27 appear?"),
        { s with num := res }, r)
    else
      if s.num < 0 then none
      else
        let res : Int := (bitsVal (natBinary s.num.toNat).reverse : Int)
        some (stepLine stepNo
          ("Write " ++ intRepr s.num ++
           " in binary and reverse the digits. What is the decimal value of the result?"),
          { s with num := res }, r)
  else if choice < mkRat 66 100 then
    let index := wordBankIndex s.num
    let resWord := WORD_BANK.getD index ""
    some (stepLine stepNo
      ("Cube " ++ intRepr s.num ++ " and add it to itself, then use this as an index into " ++
       pyListRepr WORD_BANK ++ ". Which word do you get?"),
      { s with word := resWord }, r)
  else
    match RNG.choiceList NAME_BANK r with
    | none => none
    | some (_, r) =>
      let person := s.person
      match NAME_BANK.indexOf? person with
      | none => none
      | some idx =>
        let offset := s.num ^ 2
        let (inner, r) := r.randFloat
        if inner < mkRat 1 2 then
          let newIdx := nameShiftFwd (idx : Int) offset
          some (stepLine stepNo
            ("Starting from " ++ person ++ ", move forward " ++ intRepr offset ++
             " places in " ++ pyListRepr NAME_BANK ++ ". Which name do you land on?"),
            { s with person := NAME_BANK.getD newIdx "" }, r)
        else
          let newIdx := nameShiftBwd (idx : Int) offset
          some (stepLine stepNo
            ("Starting from " ++ person ++ ", move backward " ++ intRepr offset ++
             " places in " ++ pyListRepr NAME_BANK ++ ". Which name do you land on?"),
            { s with person := NAME_BANK.getD newIdx "" }, r)

/-! ### Sequencer (`_generate_item`) -/

/-- The operator-kind list `["deduction", "induction", "abduction", "transduction"]`. -/
def opNames : List String := ["deduction", "induction", "abduction", "transduction"]

/-- Operator selection for step `i`: `step_types[i - 1]` when `i <= 4`,
otherwise a fresh uniform `rng.choice` over the four kinds. -/
def pickOp (types : List String) (i : Nat) (r : RNG) : String × RNG :=
  if i ≤ 4 then (types.getD (i - 1) "", r)
  else (opNames.getD (r.cur % opNames.length) "", r.next)

/-- The `if op == ... elif ... else` dispatch (any unknown name falls through
to transduction, as in the source's final `else`). -/
def applyOp (op : String) (i : Nat) (s : PuzzleState) (r : RNG) :
    Option (String × PuzzleState × RNG) :=
  if op = "deduction" then deduction i s r
  else if op = "induction" then induction i s r
  else if op = "abduction" then abduction i s r
  else transduction i s r

/-- The `for i in range(1, steps)` loop: `k` remaining iterations, the next
one being step number `i`.  Collects the rendered lines in order. -/
def runSteps (types : List String) : Nat → Nat → PuzzleState → RNG →
    Option (List String × PuzzleState × RNG)
  | 0, _, s, r => some ([], s, r)
  | k + 1, i, s, r =>
    let (op, r1) := pickOp types i r
    match applyOp op i s r1 with
    | none => none
    | some (line, s1, r2) =>
      match runSteps types k (i + 1) s1 r2 with
      | none => none
      | some (lines, s2, r3) => some (line :: lines, s2, r3)

/-- The always-present closing step (`Step {steps}`), a pure function of the
step count and the final state: no randomness is drawn. -/
def closingLine (steps : Int) (s : PuzzleState) : String :=
  stepLine steps
    ("Multiply " ++ intRepr s.num ++ " by the number of vowels in \x27" ++ s.word ++
     "\x27 and then by the number of letters in \x27" ++ s.person ++
     "\x27. What is the result?")

/-- Configuration dataclass. -/
structure MultiStepReasoningConfig where
  min_steps : Int := 5
  max_steps : Int := 10
  seed : Option Int := none
  size : Nat := 500
deriving DecidableEq, Repr

/-- `MultiStepReasoningConfig.validate`: the chained comparison
`5 <= min_steps <= max_steps <= 10` behind the `assert`. -/
def MultiStepReasoningConfig.validate (c : MultiStepReasoningConfig) : Bool :=
  decide (5 ≤ c.min_steps) && decide (c.min_steps ≤ c.max_steps) &&
    decide (c.max_steps ≤ 10)

/-- Everything `_generate_item` computes before assembling the output dict:
the drawn step count, the rendered non-closing lines, and the final state. -/
def generateParts (cfg : MultiStepReasoningConfig) (r : RNG) :
    Option ((Int × List String × PuzzleState) × RNG) :=
  match RNG.randint cfg.min_steps cfg.max_steps r with
  | none => none
  | some (steps, r) =>
  match RNG.randint 2 9 r with
  | none => none
  | some (num, r) =>
  match RNG.choiceList WORD_BANK r with
  | none => none
  | some (word, r) =>
  match RNG.choiceList NAME_BANK r with
  | none => none
  | some (person, r) =>
  match RNG.sample opNames 4 r with
  | none => none
  | some (types, r) =>
  match runSteps types (steps - 1).toNat 1 ⟨num, word, person⟩ r with
  | none => none
  | some (lines, s, r) => some ((steps, lines, s), r)

/-- Assembling the output dict from the parts: join the lines plus the
closing line, render the final answer, and emit the metadata dict. -/
def assembleItem (idx : Nat) (steps : Int) (lines : List String) (s : PuzzleState) : Item :=
  { question := joinLines (lines ++ [closingLine steps s]),
    answer := intRepr (s.num * (countVowels s.word : Int) * (s.person.length : Int)),
    metadata :=
      [("source_dataset", MetaVal.s DATASET_NAME),
       ("source_index", MetaVal.i (idx : Int)),
       ("num_steps", MetaVal.i steps)] }

/-- `_generate_item`. -/
def generateItem (cfg : MultiStepReasoningConfig) (idx : Nat) (r : RNG) :
    Option (Item × RNG) :=
  match generateParts cfg r with
  | none => none
  | some ((steps, lines, s), r) => some (assembleItem idx steps lines s, r)

/-- `__getitem__` with an explicit integer seed: builds
`Random(seed + idx)` and generates.  `mt` models the seeding function of
the pseudo-random generator (integer seed to draw stream). -/
def datasetGetItem (mt : Int → Nat → Nat) (cfg : MultiStepReasoningConfig)
    (seed : Int) (idx : Nat) : Option Item :=
  (generateItem cfg idx ⟨mt (seed + (idx : Int)), 0⟩).map Prod.fst

/-- The dataset object: just its validated configuration.

Modelled from the spec: the `ProceduralDataset` base class (not part of
these sources) stores the config and runs `config.validate()` during
construction, before any item is generated. -/
structure MultiStepReasoningDataset where
  config : MultiStepReasoningConfig
deriving DecidableEq, Repr

/-- Dataset construction.

Modelled from the spec: construction fails fast with a configuration error
(`none`) when validation fails, so no generation can happen for an invalid
configuration. -/
def mkDataset (cfg : MultiStepReasoningConfig) : Option MultiStepReasoningDataset :=
  if cfg.validate then some ⟨cfg⟩ else none

/-- `__getitem__`: a fresh `Random(self.seed + idx)` when a seed is
configured, otherwise a stream from ambient entropy `ent` (`Random(None)`). -/
def MultiStepReasoningDataset.getItem (mt : Int → Nat → Nat) (ent : Nat → Nat)
    (d : MultiStepReasoningDataset) (idx : Nat) : Option Item :=
  match d.config.seed with
  | some s => datasetGetItem mt d.config s idx
  | none => (generateItem d.config idx ⟨ent, 0⟩).map Prod.fst

/-! ### Observation helpers and concrete instances used in the statements -/

/-- A string is newline-free. -/
def nlFree (s : String) : Prop := '\n' ∉ s.data

instance (s : String) : Decidable (nlFree s) :=
  inferInstanceAs (Decidable ('\n' ∉ s.data))

/-- Split a character list at every newline (Python `str.split("\n")`). -/
def splitNl : List Char → List (List Char)
  | [] => [[]]
  | c :: cs =>
    if c = '\n' then [] :: splitNl cs
    else
      match splitNl cs with
      | [] => [[c]]
      | l :: ls => (c :: l) :: ls

/-- The newline-separated lines of a string. -/
def lineList (s : String) : List String := (splitNl s.data).map fun cs => ⟨cs⟩

/-- The state invariant maintained across steps: the word never contains a
newline (it is a bank word, a classification label, or built from the
letters of a previous word) and the person is always a bank member. -/
def StateOk (s : PuzzleState) : Prop := nlFree s.word ∧ s.person ∈ NAME_BANK

/-- A placeholder item used as the default of `Option.getD` in concrete
instantiations. -/
def dfltItem : Item := ⟨"", "", []⟩

/-- A degenerate seeding function: every stream is all zeros. -/
def zeroMt : Int → Nat → Nat := fun _ _ => 0

/-- The default configuration (`min_steps = 5`, `max_steps = 10`). -/
def cfgDefault : MultiStepReasoningConfig := {}

/-- A configuration with `min_steps = max_steps = 5` and seed `1`. -/
def cfgFive : MultiStepReasoningConfig :=
  { min_steps := 5, max_steps := 5, seed := some 1 }

/-- A draw sequence under which generation crashes: the step count comes out
as 6; step 1 (transduction, base-4 digit count on `num = 2`) drives `num`
to 0; step 2 (deduction, arithmetic with `add = 5 < sub = 6`) drives `num`
to `-2`; steps 3 and 4 (induction and abduction) touch only `word` and
`person`; step 5 draws transduction again with the reversed-binary
sub-variant, which raises `ValueError` on the negative `num`. -/
def crashDraws : List Nat :=
  [1, 0, 0, 0,
   3, 0, 0, 0,
   0, 0,
   0, 0, 0, 0, 4,
   2 ^ 52,
   2 ^ 53 - 1, 0, 0, 0, 0,
   3, 0, 2 ^ 52]

/-- The seeding function realizing `crashDraws`. -/
def crashMt : Int → Nat → Nat := fun _ i => crashDraws.getD i 0

/-! ## Helper lemmas -/

lemma getD_mem_of_lt (l : List String) (k : Nat) (h : k < l.length) :
    l.getD k "" ∈ l := by
  rw [List.getD_eq_getElem l _ h]
  exact List.getElem_mem h

lemma WORD_BANK_length : WORD_BANK.length = 10 := rfl

lemma NAME_BANK_length : NAME_BANK.length = 10 := rfl

lemma wordBankIndex_lt (num : Int) : wordBankIndex num < WORD_BANK.length := by
  unfold wordBankIndex
  rw [WORD_BANK_length]
  have h1 : 0 ≤ (num ^ 3 + num) % ((10 : Nat) : Int) := Int.emod_nonneg _ (by omega)
  have h2 : (num ^ 3 + num) % ((10 : Nat) : Int) < 10 := Int.emod_lt_of_pos _ (by omega)
  omega

lemma nameShiftFwd_lt (idx offset : Int) : nameShiftFwd idx offset < NAME_BANK.length := by
  unfold nameShiftFwd
  rw [NAME_BANK_length]
  have h1 : 0 ≤ (idx + offset) % ((10 : Nat) : Int) := Int.emod_nonneg _ (by omega)
  have h2 : (idx + offset) % ((10 : Nat) : Int) < 10 := Int.emod_lt_of_pos _ (by omega)
  omega

lemma nameShiftBwd_lt (idx offset : Int) : nameShiftBwd idx offset < NAME_BANK.length := by
  unfold nameShiftBwd
  rw [NAME_BANK_length]
  have h1 : 0 ≤ (idx - offset) % ((10 : Nat) : Int) := Int.emod_nonneg _ (by omega)
  have h2 : (idx - offset) % ((10 : Nat) : Int) < 10 := Int.emod_lt_of_pos _ (by omega)
  omega

lemma fwdBwdStep_bounds (forward backward idx : Int) :
    0 ≤ fwdBwdStep forward backward idx ∧
      fwdBwdStep forward backward idx < (NAME_BANK.length : Int) := by
  unfold fwdBwdStep
  rw [NAME_BANK_length]
  constructor
  · exact Int.emod_nonneg _ (by omega)
  · exact Int.emod_lt_of_pos _ (by omega)

lemma iterFwdBwd_bounds (forward backward : Int) (k : Nat) (x : Int)
    (h0 : 0 ≤ x) (h1 : x < (NAME_BANK.length : Int)) :
    0 ≤ iterFwdBwd forward backward k x ∧
      iterFwdBwd forward backward k x < (NAME_BANK.length : Int) := by
  induction k generalizing x with
  | zero => exact ⟨h0, h1⟩
  | succ k ih =>
    have hb := fwdBwdStep_bounds forward backward x
    exact ih _ hb.1 hb.2

/-! ### Newline-freeness -/

lemma nlFree_append {a b : String} (ha : nlFree a) (hb : nlFree b) : nlFree (a ++ b) := by
  unfold nlFree at *
  rw [String.data_append]
  intro hmem
  rcases List.mem_append.mp hmem with h | h
  · exact ha h
  · exact hb h

lemma digitChar_ne_nl {d : Nat} (h : d < 10) : digitChar d ≠ '\n' := by
  unfold digitChar
  interval_cases d <;> decide

lemma natDigitsGo_ne_nl : ∀ (fuel n : Nat) (acc : List Char),
    (∀ c ∈ acc, c ≠ '\n') → ∀ c ∈ natDigitsGo fuel n acc, c ≠ '\n' := by
  intro fuel
  induction fuel with
  | zero => exact fun n acc hacc c hc => hacc c hc
  | succ fuel ih =>
    intro n acc hacc c hc
    unfold natDigitsGo at hc
    split at hc
    · rcases List.mem_cons.mp hc with h1 | h1
      · subst h1
        exact digitChar_ne_nl (by omega)
      · exact hacc c h1
    · refine ih _ _ ?_ c hc
      intro c' hc'
      rcases List.mem_cons.mp hc' with h1 | h1
      · subst h1
        exact digitChar_ne_nl (Nat.mod_lt _ (by omega))
      · exact hacc c' h1

lemma natDigits_ne_nl : ∀ n, ∀ c ∈ natDigits n, c ≠ '\n' := by
  intro n c hc
  exact natDigitsGo_ne_nl (n + 1) n [] (by simp) c hc

lemma nlFree_natRepr (n : Nat) : nlFree (natRepr n) := by
  unfold nlFree natRepr
  intro h
  exact natDigits_ne_nl n '\n' h rfl

lemma nlFree_intRepr (i : Int) : nlFree (intRepr i) := by
  unfold intRepr
  split
  · exact nlFree_append (by decide) (nlFree_natRepr _)
  · exact nlFree_natRepr _

lemma nlFree_stepLine {body : String} (n : Int) (h : nlFree body) :
    nlFree (stepLine n body) := by
  unfold stepLine
  exact nlFree_append (nlFree_append (nlFree_append (by decide) (nlFree_intRepr n)) (by decide)) h

lemma nlFree_of_word_bank {w : String} (h : w ∈ WORD_BANK) : nlFree w := by
  fin_cases h <;> decide

lemma nlFree_of_name_bank {w : String} (h : w ∈ NAME_BANK) : nlFree w := by
  fin_cases h <;> decide

lemma everySnd_subset : ∀ (l : List Char) (c : Char), c ∈ everySnd l → c ∈ l := by
  intro l
  induction l using everySnd.induct with
  | case1 => intro c h; simp [everySnd] at h
  | case2 c' => intro c h; simp [everySnd] at h; simp [h]
  | case3 a b rest ih =>
    intro c h
    simp [everySnd] at h
    rcases h with h | h
    · simp [h]
    · simp [ih c h]

lemma shiftChar_ne_nl (shift : Int) (c : Char) : shiftChar shift c ≠ '\n' := by
  unfold shiftChar
  have h1 : 0 ≤ ((c.toNat : Int) - 97 + shift) % 26 := Int.emod_nonneg _ (by omega)
  have h2 : ((c.toNat : Int) - 97 + shift) % 26 < 26 := Int.emod_lt_of_pos _ (by omega)
  have h3 : (((c.toNat : Int) - 97 + shift) % 26 + 97).toNat =
      (((c.toNat : Int) - 97 + shift) % 26).toNat + 97 := by omega
  rw [h3]
  have h4 : (((c.toNat : Int) - 97 + shift) % 26).toNat < 26 := by omega
  interval_cases hh : ((((c.toNat : Int) - 97 + shift) % 26).toNat) <;> decide

/-! ### Properties of the random primitives -/

lemma randint_bounds {a b v : Int} {r r' : RNG} (h : RNG.randint a b r = some (v, r')) :
    a ≤ v ∧ v ≤ b := by
  unfold RNG.randint at h
  split at h
  · rename_i hab
    simp only [Option.some.injEq, Prod.mk.injEq] at h
    have hmod : (r.cur % (b - a + 1).toNat : Nat) < (b - a + 1).toNat :=
      Nat.mod_lt _ (by omega)
    omega
  · cases h

lemma choiceList_mem {l : List String} {x : String} {r r' : RNG}
    (h : RNG.choiceList l r = some (x, r')) : x ∈ l := by
  unfold RNG.choiceList at h
  split at h
  · cases h
  · rename_i hne
    simp only [Option.some.injEq, Prod.mk.injEq] at h
    rw [← h.1]
    exact getD_mem_of_lt l _ (Nat.mod_lt _ (by omega))

lemma sample_length : ∀ (k : Nat) (l : List String) (r : RNG) (ts : List String) (r' : RNG),
    RNG.sample l k r = some (ts, r') → ts.length = k := by
  intro k
  induction k with
  | zero =>
    intro l r ts r' h
    unfold RNG.sample at h
    simp only [Option.some.injEq, Prod.mk.injEq] at h
    rw [← h.1]
    rfl
  | succ k ih =>
    intro l r ts r' h
    unfold RNG.sample at h
    split at h
    · cases h
    · rename_i hne
      rcases hrec : RNG.sample (l.eraseIdx (r.cur % l.length)) k r.next with _ | ⟨xs, r1⟩ <;>
        rw [hrec] at h
      · cases h
      · simp only [Option.some.injEq, Prod.mk.injEq] at h
        rw [← h.1]
        simp [ih _ _ _ _ hrec]

lemma sample_subset : ∀ (k : Nat) (l : List String) (r : RNG) (ts : List String) (r' : RNG),
    RNG.sample l k r = some (ts, r') → ∀ x ∈ ts, x ∈ l := by
  intro k
  induction k with
  | zero =>
    intro l r ts r' h x hx
    unfold RNG.sample at h
    simp only [Option.some.injEq, Prod.mk.injEq] at h
    rw [← h.1] at hx
    cases hx
  | succ k ih =>
    intro l r ts r' h x hx
    unfold RNG.sample at h
    split at h
    · cases h
    · rename_i hne
      rcases hrec : RNG.sample (l.eraseIdx (r.cur % l.length)) k r.next with _ | ⟨xs, r1⟩ <;>
        rw [hrec] at h
      · cases h
      · simp only [Option.some.injEq, Prod.mk.injEq] at h
        rw [← h.1] at hx
        rcases List.mem_cons.mp hx with hx | hx
        · rw [hx]
          exact getD_mem_of_lt l _ (Nat.mod_lt _ (by omega))
        · exact List.eraseIdx_subset l _ (ih _ _ _ _ hrec x hx)

lemma sample_perm : ∀ (k : Nat) (l : List String) (r : RNG) (ts : List String) (r' : RNG),
    k = l.length → RNG.sample l k r = some (ts, r') → List.Perm ts l := by
  intro k
  induction k with
  | zero =>
    intro l r ts r' hk h
    unfold RNG.sample at h
    simp only [Option.some.injEq, Prod.mk.injEq] at h
    rw [← h.1]
    rw [List.length_eq_zero.mp hk.symm]
  | succ k ih =>
    intro l r ts r' hk h
    unfold RNG.sample at h
    split at h
    · cases h
    · rename_i hne
      have hlen : 0 < l.length := by omega
      have hi : r.cur % l.length < l.length := Nat.mod_lt _ hlen
      rcases hrec : RNG.sample (l.eraseIdx (r.cur % l.length)) k r.next with _ | ⟨xs, r1⟩ <;>
        rw [hrec] at h
      · cases h
      · simp only [Option.some.injEq, Prod.mk.injEq] at h
        have hklen : k = (l.eraseIdx (r.cur % l.length)).length := by
          rw [List.length_eraseIdx]
          simp [hi]
          omega
        have hperm := ih _ _ _ _ hklen hrec
        rw [← h.1]
        have hsplit : l.eraseIdx (r.cur % l.length) =
            l.take (r.cur % l.length) ++ l.drop (r.cur % l.length + 1) :=
          List.eraseIdx_eq_take_drop_succ l _
        have hdrop : l[r.cur % l.length] :: l.drop (r.cur % l.length + 1) =
            l.drop (r.cur % l.length) := List.getElem_cons_drop l _ hi
        have hl : List.Perm l
            (l.getD (r.cur % l.length) "" :: l.eraseIdx (r.cur % l.length)) := by
          rw [List.getD_eq_getElem l _ hi, hsplit]
          nth_rewrite 1 [← List.take_append_drop (r.cur % l.length) l]
          rw [← hdrop]
          exact List.perm_middle
        exact (hperm.cons _).trans hl.symm

lemma pairShuffle_cases {α : Type} {x y a b : α} {r r' : RNG}
    (h : RNG.pairShuffle x y r = ((a, b), r')) : (a = y ∧ b = x) ∨ (a = x ∧ b = y) := by
  unfold RNG.pairShuffle at h
  split at h <;> simp only [Prod.mk.injEq] at h
  · exact Or.inl ⟨h.1.1.symm, h.1.2.symm⟩
  · exact Or.inr ⟨h.1.1.symm, h.1.2.symm⟩

/-! ### Frame properties of the four operators -/

lemma deduction_frame {i : Nat} {s : PuzzleState} {r : RNG} {l : String}
    {s' : PuzzleState} {r' : RNG} (h : deduction i s r = some (l, s', r')) :
    (s'.word = s.word ∧ s'.person = s.person) ∨ (s'.num = s.num ∧ s'.person = s.person) ∨
      (s'.num = s.num ∧ s'.word = s.word) := by
  unfold deduction at h
  rcases hf : r.randFloat with ⟨choice, r1⟩
  rw [hf] at h
  dsimp only at h
  repeat' split at h
  all_goals
    first
      | exact Option.noConfusion h
      | (simp only [Option.some.injEq, Prod.mk.injEq] at h
         obtain ⟨-, h2, -⟩ := h
         subst h2
         simp)

lemma induction_frame {i : Nat} {s : PuzzleState} {r : RNG} {l : String}
    {s' : PuzzleState} {r' : RNG} (h : induction i s r = some (l, s', r')) :
    (s'.word = s.word ∧ s'.person = s.person) ∨ (s'.num = s.num ∧ s'.person = s.person) ∨
      (s'.num = s.num ∧ s'.word = s.word) := by
  unfold induction at h
  rcases hf : r.randFloat with ⟨choice, r1⟩
  rw [hf] at h
  dsimp only at h
  repeat' split at h
  all_goals
    first
      | exact Option.noConfusion h
      | (simp only [Option.some.injEq, Prod.mk.injEq] at h
         obtain ⟨-, h2, -⟩ := h
         subst h2
         simp)

lemma abduction_frame {i : Nat} {s : PuzzleState} {r : RNG} {l : String}
    {s' : PuzzleState} {r' : RNG} (h : abduction i s r = some (l, s', r')) :
    (s'.word = s.word ∧ s'.person = s.person) ∨ (s'.num = s.num ∧ s'.person = s.person) ∨
      (s'.num = s.num ∧ s'.word = s.word) := by
  unfold abduction at h
  rcases hf : r.randFloat with ⟨choice, r1⟩
  rw [hf] at h
  dsimp only at h
  repeat' split at h
  all_goals
    first
      | exact Option.noConfusion h
      | (simp only [Option.some.injEq, Prod.mk.injEq] at h
         obtain ⟨-, h2, -⟩ := h
         subst h2
         simp)

lemma transduction_frame {i : Nat} {s : PuzzleState} {r : RNG} {l : String}
    {s' : PuzzleState} {r' : RNG} (h : transduction i s r = some (l, s', r')) :
    (s'.word = s.word ∧ s'.person = s.person) ∨ (s'.num = s.num ∧ s'.person = s.person) ∨
      (s'.num = s.num ∧ s'.word = s.word) := by
  unfold transduction at h
  rcases hf : r.randFloat with ⟨choice, r1⟩
  rw [hf] at h
  dsimp only at h
  repeat' split at h
  all_goals
    first
      | exact Option.noConfusion h
      | (simp only [Option.some.injEq, Prod.mk.injEq] at h
         obtain ⟨-, h2, -⟩ := h
         subst h2
         simp)

/-! ### Rendered-line shape and state invariant of the four operators -/

lemma deduction_line {i : Nat} {s : PuzzleState} {r : RNG} {l : String}
    {s' : PuzzleState} {r' : RNG}
    (hok : StateOk s) (h : deduction i s r = some (l, s', r')) :
    (∃ body, l = stepLine (i : Int) body ∧ nlFree body) ∧ StateOk s' := by
  obtain ⟨hw, hp⟩ := hok
  unfold deduction at h
  rcases hf : r.randFloat with ⟨choice, r1⟩
  rw [hf] at h
  dsimp only at h
  split at h
  · rcases h1 : RNG.randint 10 20 r1 with _ | ⟨mult1, r2⟩ <;> rw [h1] at h <;> dsimp only at h
    · exact Option.noConfusion h
    rcases h2 : RNG.randint 5 15 r2 with _ | ⟨add, r3⟩ <;> rw [h2] at h <;> dsimp only at h
    · exact Option.noConfusion h
    rcases h3 : RNG.randint 2 5 r3 with _ | ⟨mult2, r4⟩ <;> rw [h3] at h <;> dsimp only at h
    · exact Option.noConfusion h
    rcases h4 : RNG.randint 2 10 r4 with _ | ⟨sub, r5⟩ <;> rw [h4] at h <;> dsimp only at h
    · exact Option.noConfusion h
    simp only [Option.some.injEq, Prod.mk.injEq] at h
    obtain ⟨hl, hs, -⟩ := h
    subst hl hs
    refine ⟨⟨_, rfl, ?_⟩, hw, hp⟩
    repeat' apply nlFree_append
    all_goals first | decide | apply nlFree_intRepr
  · split at h
    · rcases h1 : RNG.randint 3 4 r1 with _ | ⟨shortT, r2⟩ <;> rw [h1] at h <;> dsimp only at h
      · exact Option.noConfusion h
      rcases h2 : RNG.randint 7 9 r2 with _ | ⟨longT, r3⟩ <;> rw [h2] at h <;> dsimp only at h
      · exact Option.noConfusion h
      simp only [Option.some.injEq, Prod.mk.injEq] at h
      obtain ⟨hl, hs, -⟩ := h
      subst hl hs
      constructor
      · refine ⟨_, rfl, ?_⟩
        repeat' apply nlFree_append
        all_goals first | decide | apply nlFree_intRepr | exact hw
      · refine ⟨?_, hp⟩
        dsimp only
        split_ifs <;> decide
    · rcases h1 : RNG.sample NAME_BANK 4 r1 with _ | ⟨picks, r2⟩ <;> rw [h1] at h <;> dsimp only at h
      · exact Option.noConfusion h
      simp only [Option.some.injEq, Prod.mk.injEq] at h
      obtain ⟨hl, hs, -⟩ := h
      subst hl hs
      have hlen : picks.length = 4 := sample_length _ _ _ _ _ h1
      have hmem : ∀ j, j < 4 → picks.getD j "" ∈ NAME_BANK := by
        intro j hj
        exact sample_subset _ _ _ _ _ h1 _ (getD_mem_of_lt picks j (by omega))
      constructor
      · refine ⟨_, rfl, ?_⟩
        repeat' apply nlFree_append
        all_goals
          first
            | decide
            | exact nlFree_of_name_bank (hmem 0 (by omega))
            | exact nlFree_of_name_bank (hmem 1 (by omega))
            | exact nlFree_of_name_bank (hmem 2 (by omega))
            | exact nlFree_of_name_bank (hmem 3 (by omega))
      · exact ⟨hw, hmem 0 (by omega)⟩


lemma indexOf?_lt_length {l : List String} {a : String} {i : Nat}
    (h : l.indexOf? a = some i) : i < l.length := by
  unfold List.indexOf? at h
  exact (List.findIdx?_eq_some_iff_findIdx_eq.mp h).1

lemma induction_line {i : Nat} {s : PuzzleState} {r : RNG} {l : String}
    {s' : PuzzleState} {r' : RNG}
    (hok : StateOk s) (h : induction i s r = some (l, s', r')) :
    (∃ body, l = stepLine (i : Int) body ∧ nlFree body) ∧ StateOk s' := by
  obtain ⟨hw, hp⟩ := hok
  unfold induction at h
  rcases hf : r.randFloat with ⟨choice, r1⟩
  rw [hf] at h
  dsimp only at h
  split at h
  · rcases h1 : RNG.randint 2 4 r1 with _ | ⟨mult, r2⟩ <;> rw [h1] at h <;> dsimp only at h
    · exact Option.noConfusion h
    rcases h2 : RNG.randint 3 7 r2 with _ | ⟨add, r3⟩ <;> rw [h2] at h <;> dsimp only at h
    · exact Option.noConfusion h
    rcases h3 : RNG.randint 3 5 r3 with _ | ⟨n, r4⟩ <;> rw [h3] at h <;> dsimp only at h
    · exact Option.noConfusion h
    simp only [Option.some.injEq, Prod.mk.injEq] at h
    obtain ⟨hl, hs, -⟩ := h
    subst hl hs
    refine ⟨⟨_, rfl, ?_⟩, hw, hp⟩
    repeat' apply nlFree_append
    all_goals first | decide | apply nlFree_intRepr
  · split at h
    · rcases hgl : s.word.data.getLast? with _ | last <;> rw [hgl] at h <;> dsimp only at h
      · exact Option.noConfusion h
      simp only [Option.some.injEq, Prod.mk.injEq] at h
      obtain ⟨hl, hs, -⟩ := h
      subst hl hs
      constructor
      · refine ⟨_, rfl, ?_⟩
        repeat' apply nlFree_append
        all_goals first | decide | exact hw
      · refine ⟨?_, hp⟩
        unfold nlFree
        intro hmem
        rcases List.mem_append.mp hmem with hm | hm
        · exact hw (everySnd_subset _ _ (List.mem_reverse.mp hm))
        · simp at hm
          subst hm
          obtain ⟨hne, hlast⟩ := List.mem_getLast?_eq_getLast (Option.mem_def.mpr hgl)
          exact hw (by rw [hlast]; exact List.getLast_mem hne)
    · rcases hc : RNG.choiceList NAME_BANK r1 with _ | ⟨x, r2⟩ <;> rw [hc] at h <;> dsimp only at h
      · exact Option.noConfusion h
      rcases h1 : RNG.randint 1 3 r2 with _ | ⟨fwd, r3⟩ <;> rw [h1] at h <;> dsimp only at h
      · exact Option.noConfusion h
      rcases h2 : RNG.randint 1 3 r3 with _ | ⟨bwd, r4⟩ <;> rw [h2] at h <;> dsimp only at h
      · exact Option.noConfusion h
      rcases h3 : RNG.randint 2 4 r4 with _ | ⟨n, r5⟩ <;> rw [h3] at h <;> dsimp only at h
      · exact Option.noConfusion h
      rcases hio : NAME_BANK.indexOf? s.person with _ | idx0 <;> rw [hio] at h <;> dsimp only at h
      · exact Option.noConfusion h
      simp only [Option.some.injEq, Prod.mk.injEq] at h
      obtain ⟨hl, hs, -⟩ := h
      subst hl hs
      have hidx : idx0 < NAME_BANK.length := indexOf?_lt_length hio
      have hbounds := iterFwdBwd_bounds fwd bwd n.toNat (idx0 : Int)
        (by positivity) (by exact_mod_cast hidx)
      have h10 : NAME_BANK.length = 10 := rfl
      have htgt : (iterFwdBwd fwd bwd n.toNat (idx0 : Int)).toNat < NAME_BANK.length := by
        rw [h10] at hbounds ⊢
        omega
      constructor
      · refine ⟨_, rfl, ?_⟩
        repeat' apply nlFree_append
        all_goals first | decide | apply nlFree_intRepr | exact nlFree_of_name_bank hp
      · exact ⟨hw, getD_mem_of_lt _ _ htgt⟩

lemma abduction_line {i : Nat} {s : PuzzleState} {r : RNG} {l : String}
    {s' : PuzzleState} {r' : RNG}
    (hok : StateOk s) (h : abduction i s r = some (l, s', r')) :
    (∃ body, l = stepLine (i : Int) body ∧ nlFree body) ∧ StateOk s' := by
  obtain ⟨hw, hp⟩ := hok
  unfold abduction at h
  rcases hf : r.randFloat with ⟨choice, r1⟩
  rw [hf] at h
  dsimp only at h
  split at h
  · rcases h1 : RNG.randint 2 5 r1 with _ | ⟨secret, r2⟩ <;> rw [h1] at h <;> dsimp only at h
    · exact Option.noConfusion h
    rcases h2 : RNG.randint 2 4 r2 with _ | ⟨mult, r3⟩ <;> rw [h2] at h <;> dsimp only at h
    · exact Option.noConfusion h
    rcases h3 : RNG.randint 1 3 r3 with _ | ⟨off, r4⟩ <;> rw [h3] at h <;> dsimp only at h
    · exact Option.noConfusion h
    rcases hps : RNG.pairShuffle secret (numericDecoy secret off) r4 with ⟨⟨o0, o1⟩, r5⟩
    rw [hps] at h
    dsimp only at h
    simp only [Option.some.injEq, Prod.mk.injEq] at h
    obtain ⟨hl, hs, -⟩ := h
    subst hl hs
    refine ⟨⟨_, rfl, ?_⟩, hw, hp⟩
    repeat' apply nlFree_append
    all_goals first | decide | apply nlFree_intRepr
  · split at h
    · rcases h1 : RNG.randint 1 3 r1 with _ | ⟨shift, r2⟩ <;> rw [h1] at h <;> dsimp only at h
      · exact Option.noConfusion h
      rcases h2 : RNG.choiceList WORD_BANK r2 with _ | ⟨orig, r3⟩ <;> rw [h2] at h <;> dsimp only at h
      · exact Option.noConfusion h
      rcases h3 : RNG.choiceList (wordDecoyPool orig) r3 with _ | ⟨wrong, r4⟩ <;>
        rw [h3] at h <;> dsimp only at h
      · exact Option.noConfusion h
      rcases hps : RNG.pairShuffle orig wrong r4 with ⟨⟨o0, o1⟩, r5⟩
      rw [hps] at h
      dsimp only at h
      simp only [Option.some.injEq, Prod.mk.injEq] at h
      obtain ⟨hl, hs, -⟩ := h
      subst hl hs
      have horig : nlFree orig := nlFree_of_word_bank (choiceList_mem h2)
      have hwrong : nlFree wrong := by
        have := choiceList_mem h3
        unfold wordDecoyPool at this
        exact nlFree_of_word_bank (List.mem_of_mem_filter this)
      have henc : nlFree (⟨(orig.data.map (shiftChar shift)).reverse⟩ : String) := by
        unfold nlFree
        intro hm
        obtain ⟨c, -, hc⟩ := List.mem_map.mp (List.mem_reverse.mp hm)
        exact shiftChar_ne_nl shift c hc
      have ho : nlFree o0 ∧ nlFree o1 := by
        rcases pairShuffle_cases hps with ⟨e1, e2⟩ | ⟨e1, e2⟩ <;> subst e1 e2 <;>
          exact ⟨by assumption, by assumption⟩
      constructor
      · refine ⟨_, rfl, ?_⟩
        repeat' apply nlFree_append
        all_goals
          first | decide | apply nlFree_intRepr | exact henc | exact ho.1 | exact ho.2
      · exact ⟨horig, hp⟩
    · rcases h1 : RNG.sample NAME_BANK 4 r1 with _ | ⟨picks, r2⟩ <;> rw [h1] at h <;> dsimp only at h
      · exact Option.noConfusion h
      simp only [Option.some.injEq, Prod.mk.injEq] at h
      obtain ⟨hl, hs, -⟩ := h
      subst hl hs
      have hlen : picks.length = 4 := sample_length _ _ _ _ _ h1
      have hmem : ∀ j, j < 4 → picks.getD j "" ∈ NAME_BANK := by
        intro j hj
        exact sample_subset _ _ _ _ _ h1 _ (getD_mem_of_lt picks j (by omega))
      constructor
      · refine ⟨_, rfl, ?_⟩
        repeat' apply nlFree_append
        all_goals
          first
            | decide
            | exact nlFree_of_name_bank (hmem 0 (by omega))
            | exact nlFree_of_name_bank (hmem 1 (by omega))
            | exact nlFree_of_name_bank (hmem 2 (by omega))
            | exact nlFree_of_name_bank (hmem 3 (by omega))
      · exact ⟨hw, hmem 0 (by omega)⟩

lemma transduction_line {i : Nat} {s : PuzzleState} {r : RNG} {l : String}
    {s' : PuzzleState} {r' : RNG}
    (hok : StateOk s) (h : transduction i s r = some (l, s', r')) :
    (∃ body, l = stepLine (i : Int) body ∧ nlFree body) ∧ StateOk s' := by
  obtain ⟨hw, hp⟩ := hok
  unfold transduction at h
  rcases hf : r.randFloat with ⟨choice, r1⟩
  rw [hf] at h
  dsimp only at h
  split at h
  · rcases hf2 : r1.randFloat with ⟨inner, r2⟩
    rw [hf2] at h
    dsimp only at h
    split at h
    · simp only [Option.some.injEq, Prod.mk.injEq] at h
      obtain ⟨hl, hs, -⟩ := h
      subst hl hs
      refine ⟨⟨_, rfl, ?_⟩, hw, hp⟩
      repeat' apply nlFree_append
      all_goals first | decide | apply nlFree_intRepr
    · split at h
      · exact Option.noConfusion h
      · simp only [Option.some.injEq, Prod.mk.injEq] at h
        obtain ⟨hl, hs, -⟩ := h
        subst hl hs
        refine ⟨⟨_, rfl, ?_⟩, hw, hp⟩
        repeat' apply nlFree_append
        all_goals first | decide | apply nlFree_intRepr
  · split at h
    · simp only [Option.some.injEq, Prod.mk.injEq] at h
      obtain ⟨hl, hs, -⟩ := h
      subst hl hs
      constructor
      · refine ⟨_, rfl, ?_⟩
        repeat' apply nlFree_append
        all_goals first | decide | apply nlFree_intRepr
      · exact ⟨nlFree_of_word_bank (getD_mem_of_lt _ _ (wordBankIndex_lt s.num)), hp⟩
    · rcases hc : RNG.choiceList NAME_BANK r1 with _ | ⟨x, r2⟩ <;> rw [hc] at h <;> dsimp only at h
      · exact Option.noConfusion h
      rcases hio : NAME_BANK.indexOf? s.person with _ | idx <;> rw [hio] at h <;> dsimp only at h
      · exact Option.noConfusion h
      rcases hf2 : r2.randFloat with ⟨inner, r3⟩
      rw [hf2] at h
      dsimp only at h
      split at h
      · simp only [Option.some.injEq, Prod.mk.injEq] at h
        obtain ⟨hl, hs, -⟩ := h
        subst hl hs
        constructor
        · refine ⟨_, rfl, ?_⟩
          repeat' apply nlFree_append
          all_goals first | decide | apply nlFree_intRepr | exact nlFree_of_name_bank hp
        · exact ⟨hw, getD_mem_of_lt _ _ (nameShiftFwd_lt _ _)⟩
      · simp only [Option.some.injEq, Prod.mk.injEq] at h
        obtain ⟨hl, hs, -⟩ := h
        subst hl hs
        constructor
        · refine ⟨_, rfl, ?_⟩
          repeat' apply nlFree_append
          all_goals first | decide | apply nlFree_intRepr | exact nlFree_of_name_bank hp
        · exact ⟨hw, getD_mem_of_lt _ _ (nameShiftBwd_lt _ _)⟩


lemma applyOp_line {op : String} {i : Nat} {s : PuzzleState} {r : RNG} {l : String}
    {s' : PuzzleState} {r' : RNG}
    (hok : StateOk s) (h : applyOp op i s r = some (l, s', r')) :
    (∃ body, l = stepLine (i : Int) body ∧ nlFree body) ∧ StateOk s' := by
  unfold applyOp at h
  split_ifs at h
  · exact deduction_line hok h
  · exact induction_line hok h
  · exact abduction_line hok h
  · exact transduction_line hok h

lemma runSteps_spec (types : List String) : ∀ (k i : Nat) (s : PuzzleState) (r : RNG)
    (lines : List String) (s' : PuzzleState) (r' : RNG),
    StateOk s → runSteps types k i s r = some (lines, s', r') →
    StateOk s' ∧ lines.length = k ∧
      ∀ j (hj : j < lines.length), ∃ body,
        lines.get ⟨j, hj⟩ = stepLine ((i + j : Nat) : Int) body ∧ nlFree body := by
  intro k
  induction k with
  | zero =>
    intro i s r lines s' r' hok h
    unfold runSteps at h
    simp only [Option.some.injEq, Prod.mk.injEq] at h
    obtain ⟨h1, h2, -⟩ := h
    subst h1 h2
    exact ⟨hok, rfl, fun j hj => absurd hj (by simp)⟩
  | succ k ih =>
    intro i s r lines s' r' hok h
    unfold runSteps at h
    rcases hpk : pickOp types i r with ⟨op, r1⟩
    rw [hpk] at h
    dsimp only at h
    rcases ha : applyOp op i s r1 with _ | ⟨⟨line, s1, r2⟩⟩ <;> rw [ha] at h <;> dsimp only at h
    · exact Option.noConfusion h
    rcases hr : runSteps types k (i + 1) s1 r2 with _ | ⟨⟨ls, s2, r3⟩⟩ <;>
      rw [hr] at h <;> dsimp only at h
    · exact Option.noConfusion h
    simp only [Option.some.injEq, Prod.mk.injEq] at h
    obtain ⟨h1, h2, -⟩ := h
    subst h1 h2
    obtain ⟨⟨body0, hb0, hnl0⟩, hok1⟩ := applyOp_line hok ha
    obtain ⟨hok2, hlen, hidx⟩ := ih (i + 1) _ _ _ _ _ hok1 hr
    refine ⟨hok2, by simp [hlen], ?_⟩
    intro j hj
    cases j with
    | zero => exact ⟨body0, by simpa using hb0, hnl0⟩
    | succ jj =>
      have hjj : jj < ls.length := by simp at hj; omega
      obtain ⟨body, hb, hnl⟩ := hidx jj hjj
      refine ⟨body, ?_, hnl⟩
      have hget : (line :: ls).get ⟨jj + 1, hj⟩ = ls.get ⟨jj, hjj⟩ := rfl
      rw [hget, hb]
      congr 1
      omega

lemma generateParts_spec {cfg : MultiStepReasoningConfig} {r : RNG} {steps : Int}
    {lines : List String} {s : PuzzleState} {rr : RNG}
    (h : generateParts cfg r = some ((steps, lines, s), rr)) :
    cfg.min_steps ≤ steps ∧ steps ≤ cfg.max_steps ∧ StateOk s ∧
      lines.length = (steps - 1).toNat ∧
      ∀ j (hj : j < lines.length), ∃ body,
        lines.get ⟨j, hj⟩ = stepLine ((j : Int) + 1) body ∧ nlFree body := by
  unfold generateParts at h
  rcases h1 : RNG.randint cfg.min_steps cfg.max_steps r with _ | ⟨st, r1⟩ <;>
    rw [h1] at h <;> dsimp only at h
  · exact Option.noConfusion h
  rcases h2 : RNG.randint 2 9 r1 with _ | ⟨num, r2⟩ <;> rw [h2] at h <;> dsimp only at h
  · exact Option.noConfusion h
  rcases h3 : RNG.choiceList WORD_BANK r2 with _ | ⟨word, r3⟩ <;> rw [h3] at h <;> dsimp only at h
  · exact Option.noConfusion h
  rcases h4 : RNG.choiceList NAME_BANK r3 with _ | ⟨person, r4⟩ <;> rw [h4] at h <;> dsimp only at h
  · exact Option.noConfusion h
  rcases h5 : RNG.sample opNames 4 r4 with _ | ⟨types, r5⟩ <;> rw [h5] at h <;> dsimp only at h
  · exact Option.noConfusion h
  rcases h6 : runSteps types (st - 1).toNat 1 ⟨num, word, person⟩ r5 with _ | ⟨⟨ls, s1, r6⟩⟩ <;>
    rw [h6] at h <;> dsimp only at h
  · exact Option.noConfusion h
  simp only [Option.some.injEq, Prod.mk.injEq] at h
  obtain ⟨⟨hst, hls, hs1⟩, -⟩ := h
  subst hst hls hs1
  have hok0 : StateOk ⟨num, word, person⟩ :=
    ⟨nlFree_of_word_bank (choiceList_mem h3), choiceList_mem h4⟩
  obtain ⟨hok, hlen, hidx⟩ := runSteps_spec types _ _ _ _ _ _ _ hok0 h6
  obtain ⟨hlo, hhi⟩ := randint_bounds h1
  refine ⟨hlo, hhi, hok, hlen, ?_⟩
  intro j hj
  obtain ⟨body, hb, hnl⟩ := hidx j hj
  refine ⟨body, ?_, hnl⟩
  rw [hb]
  congr 1
  omega


lemma splitNl_no_nl : ∀ (cs : List Char), '\n' ∉ cs → splitNl cs = [cs] := by
  intro cs
  induction cs with
  | nil => intro _; rfl
  | cons c a ih =>
    intro h
    have hc : ¬c = '\n' := fun hh => h (by simp [hh])
    have ha : '\n' ∉ a := fun hh => h (by simp [hh])
    show (if c = '\n' then [] :: splitNl a
          else match splitNl a with
               | [] => [[c]]
               | l :: ls => (c :: l) :: ls) = [c :: a]
    rw [if_neg hc, ih ha]

lemma splitNl_append : ∀ (a b : List Char), '\n' ∉ a →
    splitNl (a ++ '\n' :: b) = a :: splitNl b := by
  intro a
  induction a with
  | nil =>
    intro b _
    simp [splitNl]
  | cons c a ih =>
    intro b h
    have hc : ¬c = '\n' := fun hh => h (by simp [hh])
    have ha : '\n' ∉ a := fun hh => h (by simp [hh])
    show (if c = '\n' then [] :: splitNl (a ++ '\n' :: b)
          else match splitNl (a ++ '\n' :: b) with
               | [] => [[c]]
               | l :: ls => (c :: l) :: ls) = (c :: a) :: splitNl b
    rw [if_neg hc, ih b ha]

lemma lineList_joinLines : ∀ (ls : List String), ls ≠ [] → (∀ l ∈ ls, nlFree l) →
    lineList (joinLines ls) = ls := by
  intro ls
  induction ls with
  | nil => intro h; exact absurd rfl h
  | cons l ls ih =>
    intro _ hfree
    cases ls with
    | nil =>
      unfold lineList joinLines
      rw [splitNl_no_nl l.data (hfree l (by simp))]
      rfl
    | cons l2 ls2 =>
      have hjoin : joinLines (l :: l2 :: ls2) = l ++ "\n" ++ joinLines (l2 :: ls2) := rfl
      have hdata : (joinLines (l :: l2 :: ls2)).data =
          l.data ++ '\n' :: (joinLines (l2 :: ls2)).data := by
        rw [hjoin, String.data_append, String.data_append, List.append_assoc]
        simp
      unfold lineList
      rw [hdata, splitNl_append _ _ (hfree l (by simp))]
      have hrest := ih (by simp) (fun x hx => hfree x (by simp [hx]))
      unfold lineList at hrest
      simp only [List.map_cons, hrest]

lemma nlFree_closingLine {steps : Int} {s : PuzzleState} (hok : StateOk s) :
    nlFree (closingLine steps s) := by
  apply nlFree_stepLine
  repeat' apply nlFree_append
  all_goals first | decide | apply nlFree_intRepr | exact hok.1 | exact nlFree_of_name_bank hok.2


/-- C1: for a configuration with an explicit integer seed, item generation is a
pure function of `(seed, index, config)`: two dataset instances built from the
same configuration return identical items at every index, independently of any
ambient entropy. -/
theorem seeded_generation_deterministic (mt : Int → Nat → Nat) (ent1 ent2 : Nat → Nat)
    (cfg : MultiStepReasoningConfig) (sd : Int) (idx : Nat)
    (d1 d2 : MultiStepReasoningDataset)
    (hseed : cfg.seed = some sd)
    (h1 : mkDataset cfg = some d1) (h2 : mkDataset cfg = some d2) :
    d1.getItem mt ent1 idx = d2.getItem mt ent2 idx := by
  unfold mkDataset at h1 h2
  by_cases hv : cfg.validate
  · rw [if_pos hv] at h1 h2
    simp only [Option.some.injEq] at h1 h2
    subst h1 h2
    unfold MultiStepReasoningDataset.getItem
    rw [hseed]
  · rw [if_neg hv] at h1
    exact Option.noConfusion h1

theorem seeded_generation_deterministic_witness :
    MultiStepReasoningDataset.getItem zeroMt (fun _ => 0) ⟨cfgFive⟩ 0 =
      MultiStepReasoningDataset.getItem zeroMt (fun n => n + 1) ⟨cfgFive⟩ 0 :=
  seeded_generation_deterministic zeroMt (fun _ => 0) (fun n => n + 1) cfgFive 1 0
    ⟨cfgFive⟩ ⟨cfgFive⟩ rfl rfl rfl

/-- C5: every bank-indexing expression reduces the index modulo the actual
bank length, so for any integer `num` (negative or arbitrarily large), any
cyclic offset and any starting index, the computed index is in range and the
indexed entry is an element of the bank. -/
theorem bank_index_safety :
    (∀ num : Int, wordBankIndex num < WORD_BANK.length ∧
      WORD_BANK.getD (wordBankIndex num) "" ∈ WORD_BANK) ∧
    (∀ idx offset : Int, nameShiftFwd idx offset < NAME_BANK.length ∧
      NAME_BANK.getD (nameShiftFwd idx offset) "" ∈ NAME_BANK) ∧
    (∀ idx offset : Int, nameShiftBwd idx offset < NAME_BANK.length ∧
      NAME_BANK.getD (nameShiftBwd idx offset) "" ∈ NAME_BANK) ∧
    (∀ forward backward idx : Int, 0 ≤ fwdBwdStep forward backward idx ∧
      fwdBwdStep forward backward idx < (NAME_BANK.length : Int)) := by
  refine ⟨fun num => ⟨wordBankIndex_lt num, ?_⟩,
    fun idx offset => ⟨nameShiftFwd_lt idx offset, ?_⟩,
    fun idx offset => ⟨nameShiftBwd_lt idx offset, ?_⟩,
    fun f b idx => fwdBwdStep_bounds f b idx⟩
  · exact getD_mem_of_lt _ _ (wordBankIndex_lt num)
  · exact getD_mem_of_lt _ _ (nameShiftFwd_lt idx offset)
  · exact getD_mem_of_lt _ _ (nameShiftBwd_lt idx offset)

/-- C6: dataset construction succeeds exactly when
`5 ≤ min_steps ≤ max_steps ≤ 10`, and fails (with no dataset, hence no
generation) exactly when that chain is violated. -/
theorem config_validation (cfg : MultiStepReasoningConfig) :
    ((∃ d, mkDataset cfg = some d) ↔
      5 ≤ cfg.min_steps ∧ cfg.min_steps ≤ cfg.max_steps ∧ cfg.max_steps ≤ 10) ∧
    (mkDataset cfg = none ↔
      ¬(5 ≤ cfg.min_steps ∧ cfg.min_steps ≤ cfg.max_steps ∧ cfg.max_steps ≤ 10)) := by
  unfold mkDataset MultiStepReasoningConfig.validate
  by_cases h : 5 ≤ cfg.min_steps ∧ cfg.min_steps ≤ cfg.max_steps ∧ cfg.max_steps ≤ 10
  · have hb : (decide (5 ≤ cfg.min_steps) && decide (cfg.min_steps ≤ cfg.max_steps) &&
        decide (cfg.max_steps ≤ 10)) = true := by
      simp [h.1, h.2.1, h.2.2]
    simp [hb, h]
  · have hb : (decide (5 ≤ cfg.min_steps) && decide (cfg.min_steps ≤ cfg.max_steps) &&
        decide (cfg.max_steps ≤ 10)) = false := by
      rcases not_and_or.mp h with h1 | h23
      · simp [h1]
      rcases not_and_or.mp h23 with h2 | h3
      · simp [h2]
      · simp [h3]
    simp [hb, h]

/-- C8: abduction decoys are never equal to the true secret: the numeric
decoy `max(2, secret + offset)` differs from any secret at least 2 whenever
the offset is at least 1, and every word drawn from the decoy pool differs
from the secret word by construction of the pool. -/
theorem abduction_decoy_distinct :
    (∀ secret offset : Int, 2 ≤ secret → 1 ≤ offset →
      numericDecoy secret offset ≠ secret) ∧
    (∀ orig w : String, w ∈ wordDecoyPool orig → w ≠ orig) := by
  constructor
  · intro secret offset hs ho
    unfold numericDecoy
    have : max 2 (secret + offset) = secret + offset := max_eq_right (by omega)
    omega
  · intro orig w hw
    have := List.mem_filter.mp hw
    simpa using this.2

theorem abduction_decoy_distinct_witness :
    numericDecoy 2 1 ≠ 2 ∧ ("tiger" : String) ≠ "lion" :=
  ⟨abduction_decoy_distinct.1 2 1 (by norm_num) (by norm_num),
   abduction_decoy_distinct.2 "lion" "tiger" (by decide)⟩


/-- C2 (refutation): generation is not total.  `cfgDefault` passes validation,
yet on the draw sequence `crashDraws` the state's `num` reaches `-2` and step 5
draws the transduction reversed-binary sub-variant, whose
`int(bin(num)[2:][::-1], 2)` raises `ValueError` on a negative `num`
(modelled as `none`). -/
theorem generation_crash_on_negative_binary :
    cfgDefault.validate = true ∧ datasetGetItem crashMt cfgDefault 1 0 = none :=
  ⟨rfl, rfl⟩

/-- C3: a generated item's question is the joined step lines followed by the
closing line (a pure function of the step count and the final state, drawing
no randomness), and its stored answer is the decimal rendering of
`num * countVowels word * length person` at the final state. -/
theorem closing_step_answer (cfg : MultiStepReasoningConfig) (idx : Nat) (r : RNG)
    (item : Item) (r' : RNG) (h : generateItem cfg idx r = some (item, r')) :
    ∃ steps lines s, generateParts cfg r = some ((steps, lines, s), r') ∧
      item.question = joinLines (lines ++ [closingLine steps s]) ∧
      item.answer =
        intRepr (s.num * (countVowels s.word : Int) * (s.person.length : Int)) := by
  unfold generateItem at h
  rcases hp : generateParts cfg r with _ | ⟨⟨steps, lines, s⟩, rr⟩ <;>
    rw [hp] at h <;> dsimp only at h
  · exact Option.noConfusion h
  simp only [Option.some.injEq, Prod.mk.injEq] at h
  obtain ⟨hi, hr⟩ := h
  subst hi hr
  exact ⟨steps, lines, s, rfl, rfl, rfl⟩

theorem closing_step_answer_witness :
    ∃ steps lines s,
      generateParts cfgDefault ⟨zeroMt 1, 0⟩ =
        some ((steps, lines, s),
          ((generateItem cfgDefault 0 ⟨zeroMt 1, 0⟩).getD (dfltItem, ⟨zeroMt 1, 0⟩)).2) ∧
      ((generateItem cfgDefault 0 ⟨zeroMt 1, 0⟩).getD (dfltItem, ⟨zeroMt 1, 0⟩)).1.question =
        joinLines (lines ++ [closingLine steps s]) ∧
      ((generateItem cfgDefault 0 ⟨zeroMt 1, 0⟩).getD (dfltItem, ⟨zeroMt 1, 0⟩)).1.answer =
        intRepr (s.num * (countVowels s.word : Int) * (s.person.length : Int)) :=
  closing_step_answer cfgDefault 0 ⟨zeroMt 1, 0⟩
    ((generateItem cfgDefault 0 ⟨zeroMt 1, 0⟩).getD (dfltItem, ⟨zeroMt 1, 0⟩)).1
    ((generateItem cfgDefault 0 ⟨zeroMt 1, 0⟩).getD (dfltItem, ⟨zeroMt 1, 0⟩)).2
    rfl

/-- C7: the four step kinds assigned to steps 1-4 are a permutation of
`["deduction", "induction", "abduction", "transduction"]` drawn by
`rng.sample` (hence each kind occurs exactly once there), steps `i ≤ 4` read
`step_types[i - 1]`, and every step `i > 4` draws a fresh uniform choice from
the full four-kind list (with replacement), always yielding one of the four
kinds. -/
theorem first_four_op_permutation :
    (∀ (r : RNG) (ts : List String) (r' : RNG),
      RNG.sample opNames 4 r = some (ts, r') →
        List.Perm ts opNames ∧ ∀ op ∈ opNames, ts.count op = 1) ∧
    (∀ (types : List String) (i : Nat) (r : RNG), i ≤ 4 →
      pickOp types i r = (types.getD (i - 1) "", r)) ∧
    (∀ (types : List String) (i : Nat) (r : RNG), 4 < i →
      pickOp types i r = (opNames.getD (r.cur % opNames.length) "", r.next) ∧
        opNames.getD (r.cur % opNames.length) "" ∈ opNames) := by
  refine ⟨?_, ?_, ?_⟩
  · intro r ts r' h
    have hperm := sample_perm 4 opNames r ts r' rfl h
    refine ⟨hperm, fun op hop => ?_⟩
    rw [hperm.count_eq]
    revert op hop
    decide
  · intro types i r hi
    unfold pickOp
    rw [if_pos hi]
  · intro types i r hi
    unfold pickOp
    rw [if_neg (by omega)]
    exact ⟨rfl, getD_mem_of_lt _ _ (Nat.mod_lt _ (by decide))⟩

theorem first_four_op_permutation_witness :
    (List.Perm opNames opNames ∧ ∀ op ∈ opNames, opNames.count op = 1) ∧
    pickOp opNames 2 ⟨zeroMt 0, 0⟩ = (opNames.getD 1 "", ⟨zeroMt 0, 0⟩) ∧
    pickOp opNames 5 ⟨zeroMt 0, 0⟩ = ("deduction", ⟨zeroMt 0, 1⟩) := by
  refine ⟨?_, ?_, ?_⟩
  · exact first_four_op_permutation.1 ⟨zeroMt 0, 0⟩ opNames ⟨zeroMt 0, 4⟩ rfl
  · exact first_four_op_permutation.2.1 opNames 2 ⟨zeroMt 0, 0⟩ (by omega)
  · exact ((first_four_op_permutation.2.2 opNames 5 ⟨zeroMt 0, 0⟩ (by omega)).1).trans rfl

/-- C9: every successful invocation of a step operator writes exactly one of
the three state fields: the other two fields of the resulting state are
unchanged (for each operator, at least one of the three two-field frames
holds). -/
theorem operator_single_field_mutation (i : Nat) (s : PuzzleState) (r : RNG)
    (l : String) (s' : PuzzleState) (r' : RNG) :
    (deduction i s r = some (l, s', r') →
      (s'.word = s.word ∧ s'.person = s.person) ∨ (s'.num = s.num ∧ s'.person = s.person) ∨
        (s'.num = s.num ∧ s'.word = s.word)) ∧
    (induction i s r = some (l, s', r') →
      (s'.word = s.word ∧ s'.person = s.person) ∨ (s'.num = s.num ∧ s'.person = s.person) ∨
        (s'.num = s.num ∧ s'.word = s.word)) ∧
    (abduction i s r = some (l, s', r') →
      (s'.word = s.word ∧ s'.person = s.person) ∨ (s'.num = s.num ∧ s'.person = s.person) ∨
        (s'.num = s.num ∧ s'.word = s.word)) ∧
    (transduction i s r = some (l, s', r') →
      (s'.word = s.word ∧ s'.person = s.person) ∨ (s'.num = s.num ∧ s'.person = s.person) ∨
        (s'.num = s.num ∧ s'.word = s.word)) :=
  ⟨fun h => deduction_frame h, fun h => induction_frame h,
   fun h => abduction_frame h, fun h => transduction_frame h⟩

theorem operator_single_field_mutation_witness :
    (∃ l s' r', deduction 1 ⟨2, "lion", "Alice"⟩ ⟨zeroMt 0, 0⟩ = some (l, s', r') ∧
      ((s'.word = "lion" ∧ s'.person = "Alice") ∨ (s'.num = 2 ∧ s'.person = "Alice") ∨
        (s'.num = 2 ∧ s'.word = "lion"))) ∧
    (∃ l s' r', induction 1 ⟨2, "lion", "Alice"⟩ ⟨zeroMt 0, 0⟩ = some (l, s', r') ∧
      ((s'.word = "lion" ∧ s'.person = "Alice") ∨ (s'.num = 2 ∧ s'.person = "Alice") ∨
        (s'.num = 2 ∧ s'.word = "lion"))) ∧
    (∃ l s' r', abduction 1 ⟨2, "lion", "Alice"⟩ ⟨zeroMt 0, 0⟩ = some (l, s', r') ∧
      ((s'.word = "lion" ∧ s'.person = "Alice") ∨ (s'.num = 2 ∧ s'.person = "Alice") ∨
        (s'.num = 2 ∧ s'.word = "lion"))) ∧
    (∃ l s' r', transduction 1 ⟨2, "lion", "Alice"⟩ ⟨zeroMt 0, 0⟩ = some (l, s', r') ∧
      ((s'.word = "lion" ∧ s'.person = "Alice") ∨ (s'.num = 2 ∧ s'.person = "Alice") ∨
        (s'.num = 2 ∧ s'.word = "lion"))) := by
  refine ⟨⟨_, _, _, rfl, ?_⟩, ⟨_, _, _, rfl, ?_⟩, ⟨_, _, _, rfl, ?_⟩, ⟨_, _, _, rfl, ?_⟩⟩
  · exact (operator_single_field_mutation 1 ⟨2, "lion", "Alice"⟩ ⟨zeroMt 0, 0⟩ _ _ _).1 rfl
  · exact (operator_single_field_mutation 1 ⟨2, "lion", "Alice"⟩ ⟨zeroMt 0, 0⟩ _ _ _).2.1 rfl
  · exact (operator_single_field_mutation 1 ⟨2, "lion", "Alice"⟩ ⟨zeroMt 0, 0⟩ _ _ _).2.2.1 rfl
  · exact (operator_single_field_mutation 1 ⟨2, "lion", "Alice"⟩ ⟨zeroMt 0, 0⟩ _ _ _).2.2.2 rfl

/-- C10 (refutation): the metadata of a concretely generated item has key set
`{source_dataset, source_index, num_steps}`, not exactly
`{source_index, num_steps}`: the dataset-name tag is emitted by
`_generate_item` itself. -/
theorem metadata_not_pair_counterexample :
    (datasetGetItem zeroMt cfgDefault 1 0).map (fun it => it.metadata.map Prod.fst) ≠
      some ["source_index", "num_steps"] := by
  have h : (datasetGetItem zeroMt cfgDefault 1 0).map (fun it => it.metadata.map Prod.fst) =
      some ["source_dataset", "source_index", "num_steps"] := rfl
  rw [h]
  simp

/-- C10 (amended): the metadata of every generated item is exactly the
three-entry dict `{source_dataset: DATASET_NAME, source_index: idx,
num_steps: steps}` where `steps` is the drawn step count — the dataset-name
tag is emitted by the core itself. -/
theorem metadata_fields (mt : Int → Nat → Nat) (cfg : MultiStepReasoningConfig)
    (seed : Int) (idx : Nat) (item : Item)
    (h : datasetGetItem mt cfg seed idx = some item) :
    ∃ steps lines s rr,
      generateParts cfg ⟨mt (seed + (idx : Int)), 0⟩ = some ((steps, lines, s), rr) ∧
      item.metadata =
        [("source_dataset", MetaVal.s DATASET_NAME),
         ("source_index", MetaVal.i (idx : Int)),
         ("num_steps", MetaVal.i steps)] := by
  unfold datasetGetItem generateItem at h
  rcases hp : generateParts cfg ⟨mt (seed + (idx : Int)), 0⟩ with _ | ⟨⟨steps, lines, s⟩, rr⟩ <;>
    rw [hp] at h <;> simp only [Option.map] at h
  · exact Option.noConfusion h
  simp only [Option.some.injEq] at h
  subst h
  exact ⟨steps, lines, s, rr, rfl, rfl⟩

theorem metadata_fields_witness :
    ∃ steps lines s rr,
      generateParts cfgDefault ⟨zeroMt 1, 0⟩ = some ((steps, lines, s), rr) ∧
      ((datasetGetItem zeroMt cfgDefault 1 0).getD dfltItem).metadata =
        [("source_dataset", MetaVal.s DATASET_NAME),
         ("source_index", MetaVal.i ((0 : Nat) : Int)),
         ("num_steps", MetaVal.i steps)] :=
  metadata_fields zeroMt cfgDefault 1 0 ((datasetGetItem zeroMt cfgDefault 1 0).getD dfltItem) rfl


/-- C4: with `min_steps = max_steps = S` (validated), a generated question
splits at newlines into exactly `S` lines, and the `j`-th line (0-based)
starts with the prefix `"Step {j+1}: "`, for `j + 1` from 1 to `S` in
order. -/
theorem question_line_structure (mt : Int → Nat → Nat) (cfg : MultiStepReasoningConfig)
    (S seed : Int) (idx : Nat) (item : Item)
    (hv : cfg.validate = true) (hmin : cfg.min_steps = S) (hmax : cfg.max_steps = S)
    (h : datasetGetItem mt cfg seed idx = some item) :
    (lineList item.question).length = S.toNat ∧
      ∀ j (hj : j < (lineList item.question).length),
        ∃ body, (lineList item.question)[j] = stepLine ((j : Int) + 1) body := by
  have hS5 : 5 ≤ S := by
    unfold MultiStepReasoningConfig.validate at hv
    simp only [Bool.and_eq_true, decide_eq_true_eq] at hv
    omega
  unfold datasetGetItem at h
  rcases hg : generateItem cfg idx ⟨mt (seed + (idx : Int)), 0⟩ with _ | ⟨it, rr⟩ <;>
    rw [hg] at h <;> simp only [Option.map] at h
  · exact Option.noConfusion h
  simp only [Option.some.injEq] at h
  subst h
  unfold generateItem at hg
  rcases hp : generateParts cfg ⟨mt (seed + (idx : Int)), 0⟩ with _ | ⟨⟨steps, lines, s⟩, rr2⟩ <;>
    rw [hp] at hg <;> dsimp only at hg
  · exact Option.noConfusion hg
  simp only [Option.some.injEq, Prod.mk.injEq] at hg
  obtain ⟨hit, -⟩ := hg
  subst hit
  obtain ⟨hlo, hhi, hok, hlen, hlines⟩ := generateParts_spec hp
  have hsteps : steps = S := by omega
  subst hsteps
  have hfree : ∀ l ∈ lines ++ [closingLine steps s], nlFree l := by
    intro l hl
    rcases List.mem_append.mp hl with hl | hl
    · obtain ⟨⟨j, hj⟩, hget⟩ := List.mem_iff_get.mp hl
      obtain ⟨body, hb, hnl⟩ := hlines j hj
      rw [← hget, hb]
      exact nlFree_stepLine _ hnl
    · simp only [List.mem_singleton] at hl
      subst hl
      exact nlFree_closingLine hok
  have hq : (assembleItem idx steps lines s).question =
      joinLines (lines ++ [closingLine steps s]) := rfl
  have hll : lineList (joinLines (lines ++ [closingLine steps s])) =
      lines ++ [closingLine steps s] :=
    lineList_joinLines _ (by simp) hfree
  rw [hq, hll]
  constructor
  · simp only [List.length_append, List.length_singleton, hlen]
    omega
  · intro j hj
    simp only [List.length_append, List.length_singleton, hlen] at hj
    by_cases hcase : j < lines.length
    · obtain ⟨body, hb, -⟩ := hlines j hcase
      refine ⟨body, ?_⟩
      rw [List.getElem_append_left hcase, ← List.get_eq_getElem lines ⟨j, hcase⟩, hb]
    · have hjeq : j = lines.length := by omega
      subst hjeq
      have hcast : ((lines.length : Int) + 1) = steps := by
        rw [hlen]
        omega
      refine ⟨"Multiply " ++ intRepr s.num ++ " by the number of vowels in \x27" ++ s.word ++
        "\x27 and then by the number of letters in \x27" ++ s.person ++
        "\x27. What is the result?", ?_⟩
      rw [hcast]
      have hge : lines.length ≤ lines.length := le_refl _
      rw [List.getElem_append_right hge]
      simp only [Nat.sub_self]
      rfl

theorem question_line_structure_witness :
    (lineList (((datasetGetItem zeroMt cfgFive 1 0).getD dfltItem).question)).length =
      (5 : Int).toNat :=
  (question_line_structure zeroMt cfgFive 5 1 0
    ((datasetGetItem zeroMt cfgFive 1 0).getD dfltItem) rfl rfl rfl rfl).1

end MultiStep
